import Mathlib

/-!
Verification of the KBase auth2 Python client (kbase/auth2_client_python).

This file gives a shallow embedding of the data model and operations of the
client library and proves properties about them:

* the bounded TTL LRU cache used by the client (the `cacheout.lru.LRUCache`
  dependency, modelled from the specification since its source is not part of
  the repository);
* the data classes of `src/kbase/_auth/models.py` and the token data class of
  `src/kbase/auth/_async/client.py`;
* the token resolver `AsyncClient.get_token`, input validation
  (`_require_string`), response checking (`_check_response`) and client
  construction (`AsyncClient.create`) of `src/kbase/auth/_async/client.py`.

Machine integers of the Python code are modelled as `Int`.  Clock readings
and TTL durations (Python floats, produced for example by the true division
`tk.cachefor / 1000`) are modelled as exact fractions (the `PyRat` type
below), idealizing binary floating point as exact rational arithmetic.
-/

/-- Exact fraction `num / den`, used to model the real-valued clock readings
and TTL durations of the Python code (Python floats).  The representation is
not normalized; all values built by the embedding have a positive
denominator, and ordering and addition are the usual fraction operations. -/
structure PyRat where
  num : Int
  den : Nat
  deriving DecidableEq

instance (n : Nat) : OfNat PyRat n := ⟨⟨n, 1⟩⟩

/-- Fraction addition: `a.num / a.den + b.num / b.den`. -/
def PyRat.add (a b : PyRat) : PyRat :=
  ⟨a.num * b.den + b.num * a.den, a.den * b.den⟩

instance : Add PyRat := ⟨PyRat.add⟩

/-- Fraction order by cross multiplication (denominators are positive for all
values built by the embedding). -/
def PyRat.le (a b : PyRat) : Prop := a.num * b.den ≤ b.num * a.den

instance : LE PyRat := ⟨PyRat.le⟩

/-- Strict fraction order by cross multiplication. -/
def PyRat.lt (a b : PyRat) : Prop := a.num * b.den < b.num * a.den

instance : LT PyRat := ⟨PyRat.lt⟩

instance (a b : PyRat) : Decidable (a ≤ b) :=
  inferInstanceAs (Decidable (a.num * b.den ≤ b.num * a.den))

instance (a b : PyRat) : Decidable (a < b) :=
  inferInstanceAs (Decidable (a.num * b.den < b.num * a.den))

/-- An integer viewed as a fraction. -/
def PyRat.ofInt (i : Int) : PyRat := ⟨i, 1⟩

/-- Division of a fraction by a (positive) natural number; models the Python
true division `tk.cachefor / 1000`. -/
def PyRat.divNat (a : PyRat) (n : Nat) : PyRat := ⟨a.num, a.den * n⟩

theorem PyRat.not_le_of_lt {a b : PyRat} (h : a < b) : ¬ b ≤ a :=
  Int.not_le.mpr h

/-- Modelled from the spec: the bounded TTL LRU cache.  The client uses
`cacheout.lru.LRUCache`, an external dependency whose source is not part of
this repository; the cache is therefore modelled from the specification
(sections 3 and 4.2): a mapping from keys to (value, absolute expiration
instant) pairs with a capacity bound and least-recently-used eviction.
`entries` is ordered by recency: the head is the most recently used entry and
the last element is the least recently used one. -/
structure LRUCache (K V : Type) where
  maxsize : Nat
  entries : List (K × V × PyRat)
  deriving DecidableEq

/-- First entry of an association list with the given key, if any. -/
def lruFind {K V : Type} [DecidableEq K] (k : K) : List (K × V × PyRat) → Option (V × PyRat)
  | [] => none
  | e :: es => if e.1 = k then some e.2 else lruFind k es

/-- Remove the entries with the given key from an association list. -/
def lruErase {K V : Type} [DecidableEq K] (k : K) : List (K × V × PyRat) → List (K × V × PyRat)
  | [] => []
  | e :: es => if e.1 = k then lruErase k es else e :: lruErase k es

/-- Modelled from the spec: cache construction.  A fresh cache is empty; the
capacity check of the client constructor (`cache_max_size must be > 0`) is
modelled separately in `AsyncClient.init_checks`. -/
def LRUCache.construct (K V : Type) (maxsize : Nat) : LRUCache K V :=
  ⟨maxsize, []⟩

/-- Modelled from the spec: `get(key) -> value | absent`.  If the key is
unknown, or known but `clock.now() >= entry.expiration`, returns absent and
the entry (if any) is eliminated from the map.  Otherwise returns the value
and marks the entry most-recently-used (moves it to the head of the recency
order). -/
def LRUCache.get {K V : Type} [DecidableEq K] (c : LRUCache K V) (now : PyRat) (k : K) :
    Option V × LRUCache K V :=
  match lruFind k c.entries with
  | none => (none, c)
  | some (v, e) =>
      if e ≤ now then (none, ⟨c.maxsize, lruErase k c.entries⟩)
      else (some v, ⟨c.maxsize, (k, v, e) :: lruErase k c.entries⟩)

/-- Modelled from the spec: `set(key, value, ttl)`.  Inserts or overwrites the
entry with expiration `clock.now() + ttl` and marks it most-recently-used; if
the insertion would grow the map beyond capacity, the least-recently-used
entry (the last element of the recency order, which breaks ties by insertion
order) is evicted as part of the insertion.  The claims under verification
only exercise `set` with positive TTL values, so the configuration failure on
nonpositive TTL is not modelled. -/
def LRUCache.set {K V : Type} [DecidableEq K] (c : LRUCache K V) (now ttl : PyRat) (k : K)
    (v : V) : LRUCache K V :=
  ⟨c.maxsize,
    (k, v, now + ttl) ::
      (if c.maxsize ≤ (lruErase k c.entries).length
       then (lruErase k c.entries).dropLast
       else lruErase k c.entries)⟩

/-- Raw lookup of the entry stored under a key (no recency or expiry effect);
used to state properties about the cache content. -/
def LRUCache.lookup {K V : Type} [DecidableEq K] (c : LRUCache K V) (k : K) :
    Option (V × PyRat) :=
  lruFind k c.entries

/-- Apply a sequence of `set` operations, each given as
(now, ttl, key, value), from left to right. -/
def LRUCache.applySets {K V : Type} [DecidableEq K] (c : LRUCache K V) :
    List (PyRat × PyRat × K × V) → LRUCache K V
  | [] => c
  | op :: ops => (c.set op.1 op.2.1 op.2.2.1 op.2.2.2).applySets ops

/-- Key of a `set` operation given as a (now, ttl, key, value) tuple. -/
def opKey {K V : Type} (op : PyRat × PyRat × K × V) : K := op.2.2.1

/-- Value of a `set` operation given as a (now, ttl, key, value) tuple. -/
def opVal {K V : Type} (op : PyRat × PyRat × K × V) : V := op.2.2.2

/-- Cache entry produced by a `set` operation given as a
(now, ttl, key, value) tuple. -/
def opEntry {K V : Type} (op : PyRat × PyRat × K × V) : K × V × PyRat :=
  (op.2.2.1, op.2.2.2, op.1 + op.2.1)

section CacheLemmas

variable {K V : Type} [DecidableEq K]

theorem lruFind_eq_none {k : K} {l : List (K × V × PyRat)}
    (h : k ∉ l.map Prod.fst) : lruFind k l = none := by
  induction l with
  | nil => rfl
  | cons e es ih =>
      simp only [List.map_cons, List.mem_cons] at h
      push_neg at h
      simp only [lruFind, if_neg (fun he : e.1 = k => h.1 he.symm)]
      exact ih h.2

theorem lruFind_isSome {k : K} {l : List (K × V × PyRat)}
    (h : k ∈ l.map Prod.fst) : (lruFind k l).isSome = true := by
  induction l with
  | nil => simp at h
  | cons e es ih =>
      simp only [List.map_cons, List.mem_cons] at h
      by_cases he : e.1 = k
      · simp [lruFind, he]
      · rcases h with h | h
        · exact absurd h.symm he
        · simpa [lruFind, he] using ih h

theorem lruFind_of_nodup_mem {k : K} {v : V} {e : PyRat} {l : List (K × V × PyRat)}
    (hnd : (l.map Prod.fst).Nodup) (hmem : (k, v, e) ∈ l) : lruFind k l = some (v, e) := by
  induction l with
  | nil => simp at hmem
  | cons a l ih =>
      simp only [List.map_cons, List.nodup_cons] at hnd
      rcases List.mem_cons.mp hmem with h | h
      · subst h
        simp [lruFind]
      · have hka : a.1 ≠ k := by
          intro hak
          exact hnd.1 (hak ▸ (List.mem_map_of_mem Prod.fst h))
        simp only [lruFind, if_neg hka]
        exact ih hnd.2 h

theorem lruErase_of_not_mem {k : K} {l : List (K × V × PyRat)}
    (h : k ∉ l.map Prod.fst) : lruErase k l = l := by
  induction l with
  | nil => rfl
  | cons e es ih =>
      simp only [List.map_cons, List.mem_cons] at h
      push_neg at h
      simp only [lruErase, if_neg (fun he : e.1 = k => h.1 he.symm)]
      exact congrArg (e :: ·) (ih h.2)

theorem lruErase_sublist (k : K) (l : List (K × V × PyRat)) : (lruErase k l).Sublist l := by
  induction l with
  | nil => exact List.Sublist.refl _
  | cons e es ih =>
      by_cases he : e.1 = k
      · simp only [lruErase, if_pos he]
        exact ih.cons e
      · simp only [lruErase, if_neg he]
        exact ih.cons₂ e

theorem length_lruErase_le (k : K) (l : List (K × V × PyRat)) :
    (lruErase k l).length ≤ l.length :=
  (lruErase_sublist k l).length_le

theorem mem_lruErase {k : K} {a : K × V × PyRat} {l : List (K × V × PyRat)} :
    a ∈ lruErase k l ↔ a ∈ l ∧ a.1 ≠ k := by
  induction l with
  | nil => simp [lruErase]
  | cons e es ih =>
      by_cases he : e.1 = k
      · simp only [lruErase, if_pos he, ih, List.mem_cons]
        constructor
        · exact fun h => ⟨Or.inr h.1, h.2⟩
        · rintro ⟨h | h, hne⟩
          · exact absurd (h ▸ he) hne
          · exact ⟨h, hne⟩
      · simp only [lruErase, if_neg he, List.mem_cons, ih]
        constructor
        · rintro (h | h)
          · exact ⟨Or.inl h, h ▸ he⟩
          · exact ⟨Or.inr h.1, h.2⟩
        · rintro ⟨h | h, hne⟩
          · exact Or.inl h
          · exact Or.inr ⟨h, hne⟩

theorem not_mem_map_fst_lruErase (k : K) (l : List (K × V × PyRat)) :
    k ∉ (lruErase k l).map Prod.fst := by
  intro h
  rcases List.mem_map.mp h with ⟨a, ha, hak⟩
  exact (mem_lruErase.mp ha).2 hak

theorem lruFind_lruErase_ne {k k2 : K} (l : List (K × V × PyRat)) (h : k2 ≠ k) :
    lruFind k2 (lruErase k l) = lruFind k2 l := by
  induction l with
  | nil => rfl
  | cons e es ih =>
      by_cases he : e.1 = k
      · have : e.1 ≠ k2 := fun h2 => h (h2 ▸ he)
        simp only [lruErase, if_pos he, lruFind, if_neg this, ih]
      · by_cases he2 : e.1 = k2
        · simp [lruErase, if_neg he, lruFind, if_pos he2]
        · simp only [lruErase, if_neg he, lruFind, if_neg he2, ih]

theorem length_lruErase_of_nodup_mem {k : K} {l : List (K × V × PyRat)}
    (hnd : (l.map Prod.fst).Nodup) (h : k ∈ l.map Prod.fst) :
    (lruErase k l).length + 1 = l.length := by
  induction l with
  | nil => simp at h
  | cons e es ih =>
      simp only [List.map_cons, List.nodup_cons] at hnd
      simp only [List.map_cons, List.mem_cons] at h
      by_cases he : e.1 = k
      · have : k ∉ es.map Prod.fst := he ▸ hnd.1
        simp [lruErase, if_pos he, lruErase_of_not_mem this]
      · rcases h with h | h
        · exact absurd h.symm he
        · simp only [lruErase, if_neg he, List.length_cons]
          exact congrArg (· + 1) (ih hnd.2 h)

theorem set_maxsize (c : LRUCache K V) (now ttl : PyRat) (k : K) (v : V) :
    (c.set now ttl k v).maxsize = c.maxsize := rfl

theorem set_length_le {c : LRUCache K V} (now ttl : PyRat) (k : K) (v : V)
    (h1 : 1 ≤ c.maxsize) (h2 : c.entries.length ≤ c.maxsize) :
    (c.set now ttl k v).entries.length ≤ c.maxsize := by
  have he : (lruErase k c.entries).length ≤ c.entries.length := length_lruErase_le k c.entries
  simp only [LRUCache.set, List.length_cons]
  by_cases hc : c.maxsize ≤ (lruErase k c.entries).length
  · simp only [if_pos hc, List.length_dropLast]
    omega
  · simp only [if_neg hc]
    omega

theorem applySets_length_le (ops : List (PyRat × PyRat × K × V)) (c : LRUCache K V)
    (h1 : 1 ≤ c.maxsize) (h2 : c.entries.length ≤ c.maxsize) :
    (c.applySets ops).entries.length ≤ c.maxsize := by
  induction ops generalizing c with
  | nil => exact h2
  | cons op ops ih =>
      simp only [LRUCache.applySets]
      exact ih _ h1 (set_length_le op.1 op.2.1 op.2.2.1 op.2.2.2 h1 h2)

theorem applySets_append (c : LRUCache K V) (l1 l2 : List (PyRat × PyRat × K × V)) :
    c.applySets (l1 ++ l2) = (c.applySets l1).applySets l2 := by
  induction l1 generalizing c with
  | nil => rfl
  | cons op l1 ih =>
      simp only [List.cons_append, LRUCache.applySets]
      exact ih _

theorem set_fresh {c : LRUCache K V} {k : K} (now ttl : PyRat) (v : V)
    (hk : k ∉ c.entries.map Prod.fst) (hlen : c.entries.length < c.maxsize) :
    (c.set now ttl k v).entries = (k, v, now + ttl) :: c.entries := by
  have he : lruErase k c.entries = c.entries := lruErase_of_not_mem hk
  simp only [LRUCache.set, he]
  rw [if_neg (by omega : ¬ c.maxsize ≤ c.entries.length)]

theorem applySets_fresh (ops : List (PyRat × PyRat × K × V)) (c : LRUCache K V)
    (hnd : (ops.map opKey).Nodup)
    (hfresh : ∀ op ∈ ops, opKey op ∉ c.entries.map Prod.fst)
    (hlen : c.entries.length + ops.length ≤ c.maxsize) :
    (c.applySets ops).entries = (ops.map opEntry).reverse ++ c.entries := by
  induction ops generalizing c with
  | nil => simp [LRUCache.applySets]
  | cons op ops ih =>
      simp only [List.map_cons, List.nodup_cons, List.length_cons] at hnd hlen
      have hk : opKey op ∉ c.entries.map Prod.fst := hfresh op (List.mem_cons_self op ops)
      have hset : (c.set op.1 op.2.1 op.2.2.1 op.2.2.2).entries = opEntry op :: c.entries :=
        set_fresh op.1 op.2.1 op.2.2.2 hk (by omega)
      have hrec := ih (c.set op.1 op.2.1 op.2.2.1 op.2.2.2) hnd.2 ?_ ?_
      · simp only [LRUCache.applySets, hrec, hset, List.map_cons, List.reverse_cons,
          List.append_assoc, List.singleton_append]
      · intro o ho
        rw [hset, List.map_cons]
        simp only [List.mem_cons]
        push_neg
        refine ⟨?_, hfresh o (List.mem_cons_of_mem op ho)⟩
        show opKey o ≠ opKey op
        exact fun he => hnd.1 (he ▸ List.mem_map_of_mem opKey ho)
      · rw [hset, set_maxsize, List.length_cons]
        omega

theorem applySets_maxsize (c : LRUCache K V) (ops : List (PyRat × PyRat × K × V)) :
    (c.applySets ops).maxsize = c.maxsize := by
  induction ops generalizing c with
  | nil => rfl
  | cons op ops ih =>
      simp only [LRUCache.applySets]
      rw [ih]
      rfl

theorem set_full_fresh {c : LRUCache K V} {k : K} (now ttl : PyRat) (v : V)
    (hk : k ∉ c.entries.map Prod.fst) (hlen : c.maxsize ≤ c.entries.length) :
    (c.set now ttl k v).entries = (k, v, now + ttl) :: c.entries.dropLast := by
  have he : lruErase k c.entries = c.entries := lruErase_of_not_mem hk
  simp only [LRUCache.set, he, if_pos hlen]

theorem dropLast_cons_ne {α : Type} (a : α) {l : List α} (h : l ≠ []) :
    (a :: l).dropLast = a :: l.dropLast := by
  cases l with
  | nil => exact absurd rfl h
  | cons b t => rfl

theorem lookup_set_self (c : LRUCache K V) (now ttl : PyRat) (k : K) (v : V) :
    (c.set now ttl k v).lookup k = some (v, now + ttl) := by
  simp [LRUCache.set, LRUCache.lookup, lruFind]

theorem lookup_get_ne (c : LRUCache K V) (now : PyRat) {k k2 : K} (h : k2 ≠ k) :
    ((c.get now k).2).lookup k2 = c.lookup k2 := by
  simp only [LRUCache.get, LRUCache.lookup]
  rcases hf : lruFind k c.entries with _ | ⟨v, e⟩
  · rfl
  · by_cases hle : e ≤ now
    · simp only [if_pos hle]
      exact lruFind_lruErase_ne c.entries h
    · simp only [if_neg hle, lruFind, if_neg (fun hk : k = k2 => h hk.symm)]
      exact lruFind_lruErase_ne c.entries h

theorem get_hit_result_and_cache {c : LRUCache K V} {now : PyRat} {k : K} {tk : V}
    (h : (c.get now k).1 = some tk) :
    ∃ e2, lruFind k c.entries = some (tk, e2) ∧ ¬ e2 ≤ now ∧
      (c.get now k).2 = ⟨c.maxsize, (k, tk, e2) :: lruErase k c.entries⟩ := by
  rcases hf : lruFind k c.entries with _ | ⟨v, e⟩
  · simp [LRUCache.get, hf] at h
  · by_cases hle : e ≤ now
    · simp [LRUCache.get, hf, if_pos hle] at h
    · simp only [LRUCache.get, hf, if_neg hle] at h
      obtain rfl : v = tk := Option.some.inj h
      exact ⟨e, rfl, hle, by simp [LRUCache.get, hf, if_neg hle]⟩

theorem lookup_get_self_of_miss (c : LRUCache K V) (now : PyRat) (k : K)
    (h : (c.get now k).1 = none) : ((c.get now k).2).lookup k = none := by
  simp only [LRUCache.get, LRUCache.lookup]
  rcases hf : lruFind k c.entries with _ | ⟨v, e⟩
  · exact hf
  · by_cases hle : e ≤ now
    · simp only [if_pos hle]
      exact lruFind_eq_none (not_mem_map_fst_lruErase k c.entries)
    · exfalso
      simp only [LRUCache.get, hf, if_neg hle] at h
      exact Option.noConfusion h

end CacheLemmas

/-- Failure taxonomy of the client: `validationError` models Python
`ValueError`, `invalidTokenError` and `invalidUserError` model the exception
classes of `kbase.auth.exceptions`, and `ioError` models Python `IOError`
(the ServiceError category of the spec). -/
inductive AuthError where
  | validationError (msg : String)
  | invalidTokenError (msg : String)
  | invalidUserError (msg : String)
  | ioError (msg : String)
  deriving DecidableEq

/-- Observable side effects of one resolver call, in order of occurrence:
a cache read, an invocation of the on-cache-miss callback, one network fetch,
and a cache write. -/
inductive Event where
  | cacheGet
  | cacheMiss
  | fetch
  | cacheSet
  deriving DecidableEq

/-- A Python value passed as the `token` argument: `None`, a string, or a
value of any other type (`pyother` stands for every non-string non-None
value, such as `3`). -/
inductive PyInput where
  | pynone
  | pystr (s : String)
  | pyother
  deriving DecidableEq

namespace Models

/-- The MFA status enumeration of `src/kbase/_auth/models.py`. -/
inductive MFAStatus where
  | USED
  | NOT_USED
  | UNKNOWN
  deriving DecidableEq

/-- Given a string (or `None`), get the mfa enum; models
`MFAStatus.get_mfa` of `src/kbase/_auth/models.py`. -/
def MFAStatus.get_mfa (mfa : Option String) : Except String MFAStatus :=
  match mfa with
  | none => .ok .UNKNOWN
  | some s =>
      if s = "" then .ok .UNKNOWN
      else if s.toLower = "used" then .ok .USED
      else if s.toLower = "notused" then .ok .NOT_USED
      else if s.toLower = "unknown" then .ok .UNKNOWN
      else .error ("Unknown MFA string: " ++ s.toLower)

/-- The `Token` dataclass of `src/kbase/_auth/models.py` (this one carries an
MFA status). -/
structure Token where
  id : String
  user : String
  mfa : MFAStatus
  created : Int
  expires : Int
  cachefor : Int
  deriving DecidableEq

/-- The field names of the `Token` dataclass of `src/kbase/_auth/models.py`
(`VALID_TOKEN_FIELDS = {f.name for f in fields(Token)}`). -/
def VALID_TOKEN_FIELDS : List String :=
  ["id", "user", "mfa", "created", "expires", "cachefor"]

/-- The `User` dataclass of `src/kbase/_auth/models.py`. -/
structure User where
  user : String
  customroles : List String
  deriving DecidableEq

/-- The field names of the `User` dataclass of `src/kbase/_auth/models.py`. -/
def VALID_USER_FIELDS : List String := ["user", "customroles"]

end Models

namespace AsyncClient

/-- The `Token` dataclass defined at module level in
`src/kbase/auth/_async/client.py`.  Note that, unlike the `Token` of
`src/kbase/_auth/models.py`, it has no MFA field (the source carries the
comment `TODO MFA add mfa info when the auth service supports it`). -/
structure Token where
  id : String
  user : String
  created : Int
  expires : Int
  cachefor : Int
  deriving DecidableEq

/-- The field names of the client `Token` dataclass, as computed by
`_VALID_TOKEN_FIELDS = {f.name for f in fields(Token)}` in
`src/kbase/auth/_async/client.py`. -/
def VALID_TOKEN_FIELDS : List String := ["id", "user", "created", "expires", "cachefor"]

/-- Python `str.strip()`: remove leading and trailing whitespace
(structural model on the character list). -/
def pyStrip (s : String) : String :=
  String.mk (((s.data.dropWhile Char.isWhitespace).reverse.dropWhile Char.isWhitespace).reverse)

/-- `_require_string` of `src/kbase/auth/_async/client.py`: fails unless the
value is a string whose stripped form is non-empty (`not isinstance(putative,
str) or not putative.strip()`); returns the stripped string. -/
def require_string (putative : PyInput) (name : String) : Except String String :=
  match putative with
  | .pystr s =>
      if pyStrip s = "" then
        .error (name ++ " is required and cannot be a whitespace only string")
      else .ok (pyStrip s)
  | _ => .error (name ++ " is required and cannot be a whitespace only string")

/-- Python `text.split(sep, maxsplit)` on a character list: split on `sep` at
most `maxsplit` times. -/
def pySplitMax (sep : Char) (n : Nat) (cs : List Char) : List (List Char) :=
  match n, cs with
  | 0, cs => [cs]
  | _ + 1, [] => [[]]
  | n + 1, c :: rest =>
      if c = sep then [] :: pySplitMax sep n rest
      else
        match pySplitMax sep (n + 1) rest with
        | [] => [[c]]
        | p :: ps => (c :: p) :: ps

/-- Python `message.split(":", 3)[-1]`, as used for the illegal-username
error message in `_check_response`. -/
def splitColonLast (s : String) : String :=
  String.mk (((pySplitMax ':' 3 s.data).getLast?).getD [])

/-- The parts of an auth-server JSON response body read by the client:
`servicename`, `error.appcode`, and `error.message`. -/
structure AuthJsonBody where
  servicename : Option String
  errorAppcode : Option Int
  errorMessage : String
  deriving DecidableEq

/-- An HTTP response body: either non-JSON text or a JSON body. -/
inductive RespBody where
  | nonJson (text : String)
  | json (j : AuthJsonBody)
  deriving DecidableEq

/-- An HTTP response as seen by `_check_response`. -/
structure HttpResponse where
  status_code : Nat
  body : RespBody
  deriving DecidableEq

/-- `_check_response` of `src/kbase/auth/_async/client.py`: non-JSON bodies
become `IOError`; non-200 JSON responses are mapped by `error.appcode`
(10020 to `InvalidTokenError`, 30010 to `InvalidUserError` with
`message.split(":", 3)[-1]`, anything else to `IOError`); a 200 JSON
response is returned. -/
def check_response (r : HttpResponse) : Except AuthError AuthJsonBody :=
  match r.body with
  | .nonJson _ =>
      .error (.ioError ("Non-JSON response from KBase auth server, status code: "
        ++ toString r.status_code))
  | .json j =>
      if r.status_code ≠ 200 then
        if j.errorAppcode = some 10020 then
          .error (.invalidTokenError "KBase auth server reported token is invalid.")
        else if j.errorAppcode = some 30010 then
          .error (.invalidUserError (splitColonLast j.errorMessage))
        else
          .error (.ioError ("Error from KBase auth server: " ++ j.errorMessage))
      else .ok j

/-- The constructor validation of `AsyncClient.__init__` that concerns the
cache: `cache_max_size` must be at least 1 and a timer must be supplied. -/
def init_checks (cache_max_size : Int) (timer_present : Bool) : Except String Unit :=
  if cache_max_size < 1 then .error "cache_max_size must be > 0"
  else if timer_present = false then .error "timer is required"
  else .ok ()

/-- `AsyncClient.create` of `src/kbase/auth/_async/client.py`.  The argument
`getResult` is the outcome of the HTTP GET of the base url (`.error e` models
a transport failure raised by the HTTP library).  The result pairs the
outcome of `create` with a flag telling whether `close()` was called on the
underlying HTTP client: the handshake runs in a `try` block whose bare
`except` closes the client and re-raises, and the service-name check raises
`IOError` inside that block. -/
def create (base_url : String) (getResult : Except AuthError HttpResponse) :
    Except AuthError Unit × Bool :=
  match (match getResult with
         | .error e => Except.error e
         | .ok r => check_response r) with
  | .error e => (.error e, true)
  | .ok j =>
      if j.servicename = some "Authentication Service" then (.ok (), false)
      else
        (.error (.ioError ("The service at url " ++ base_url
          ++ " is not the KBase auth service")), true)

instance exceptDecEq {ε α : Type} [DecidableEq ε] [DecidableEq α] : DecidableEq (Except ε α)
  | .error e1, .error e2 =>
      if h : e1 = e2 then isTrue (by rw [h]) else isFalse (fun he => h (Except.error.inj he))
  | .error _, .ok _ => isFalse (fun he => Except.noConfusion he)
  | .ok _, .error _ => isFalse (fun he => Except.noConfusion he)
  | .ok a1, .ok a2 =>
      if h : a1 = a2 then isTrue (by rw [h]) else isFalse (fun he => h (Except.ok.inj he))

/-- The outcome of one `get_token` call: the returned record or the raised
exception, the state of the token cache afterwards, and the observable
events in order. -/
structure ResolveOutcome where
  result : Except AuthError Token
  cache : LRUCache String Token
  trace : List Event
  deriving DecidableEq

/-- `AsyncClient.get_token` of `src/kbase/auth/_async/client.py`: validate
the token with `_require_string`, look the raw (untrimmed) token up in the
token cache (`default=False`, so an absent or expired entry is a miss), and
on a hit return the cached record; on a miss call `on_cache_miss` if
supplied, perform the fetch (`fetch` is the outcome of the HTTP GET of the
token url passed through `_check_response` and the `Token` constructor), and
on success cache the record under the raw token with
`ttl=tk.cachefor / 1000` and return it. -/
def get_token (c : LRUCache String Token) (now : PyRat) (fetch : Except AuthError Token)
    (on_cache_miss : Bool) (token : PyInput) : ResolveOutcome :=
  match require_string token "token" with
  | .error e => ⟨.error (.validationError e), c, []⟩
  | .ok _ =>
      match token with
      | .pystr s =>
          match c.get now s with
          | (some tk, c2) => ⟨.ok tk, c2, [.cacheGet]⟩
          | (none, c2) =>
              match fetch with
              | .error e =>
                  ⟨.error e, c2,
                    (if on_cache_miss then [.cacheGet, .cacheMiss] else [.cacheGet])
                      ++ [.fetch]⟩
              | .ok tk =>
                  ⟨.ok tk, c2.set now ((PyRat.ofInt tk.cachefor).divNat 1000) s tk,
                    (if on_cache_miss then [.cacheGet, .cacheMiss] else [.cacheGet])
                      ++ [.fetch, .cacheSet]⟩
      | _ => ⟨.error (.validationError "token is required and cannot be a whitespace only string"),
          c, []⟩

/-- The outcome of one `get_user` call, like `ResolveOutcome` but for user
records. -/
structure UserResolveOutcome where
  result : Except AuthError Models.User
  cache : LRUCache String Models.User
  trace : List Event
  deriving DecidableEq

/-- Modelled from the spec: `get_user`, the User-kind resolver.  The provided
sources contain only the Token-kind resolver (`get_token`); `get_user` is
exercised by the repository tests but its code is not under `src`, so it is
modelled from spec section 4.4: same validate/lookup/miss-callback/fetch/
cache algorithm as `get_token`, against the user cache.  The fetch yields the
user record together with the cache-for duration (milliseconds) that governs
how long it may be cached. -/
def get_user (c : LRUCache String Models.User) (now : PyRat)
    (fetch : Except AuthError (Models.User × Int)) (on_cache_miss : Bool)
    (token : PyInput) : UserResolveOutcome :=
  match require_string token "token" with
  | .error e => ⟨.error (.validationError e), c, []⟩
  | .ok _ =>
      match token with
      | .pystr s =>
          match c.get now s with
          | (some u, c2) => ⟨.ok u, c2, [.cacheGet]⟩
          | (none, c2) =>
              match fetch with
              | .error e =>
                  ⟨.error e, c2,
                    (if on_cache_miss then [.cacheGet, .cacheMiss] else [.cacheGet])
                      ++ [.fetch]⟩
              | .ok (u, cachefor) =>
                  ⟨.ok u, c2.set now ((PyRat.ofInt cachefor).divNat 1000) s u,
                    (if on_cache_miss then [.cacheGet, .cacheMiss] else [.cacheGet])
                      ++ [.fetch, .cacheSet]⟩
      | _ => ⟨.error (.validationError "token is required and cannot be a whitespace only string"),
          c, []⟩

/-- Modelled from the spec: the mutable state of one client instance.  The
provided source constructs the token cache in `__init__`; per spec section
4.4 the Token-kind and User-kind resolvers share the cache type but not the
cache instance, so the client owns two caches. -/
structure AsyncClientState where
  token_cache : LRUCache String Token
  user_cache : LRUCache String Models.User
  deriving DecidableEq

/-- `resolve_token` at the client level: run `get_token` against the token
cache and store the updated token cache back in the client state. -/
def resolve_token (st : AsyncClientState) (now : PyRat) (fetch : Except AuthError Token)
    (on_cache_miss : Bool) (token : PyInput) :
    (Except AuthError Token × List Event) × AsyncClientState :=
  ((( get_token st.token_cache now fetch on_cache_miss token).result,
    (get_token st.token_cache now fetch on_cache_miss token).trace),
   ⟨(get_token st.token_cache now fetch on_cache_miss token).cache, st.user_cache⟩)

/-- Modelled from the spec: `resolve_user` at the client level: run
`get_user` against the user cache and store the updated user cache back in
the client state. -/
def resolve_user (st : AsyncClientState) (now : PyRat)
    (fetch : Except AuthError (Models.User × Int)) (on_cache_miss : Bool)
    (token : PyInput) :
    (Except AuthError Models.User × List Event) × AsyncClientState :=
  ((( get_user st.user_cache now fetch on_cache_miss token).result,
    (get_user st.user_cache now fetch on_cache_miss token).trace),
   ⟨st.token_cache, (get_user st.user_cache now fetch on_cache_miss token).cache⟩)

/-- Apply a sequence of `resolve_user` calls, each given as
(now, fetch outcome, callback supplied, token), to the client state. -/
def applyUserCalls (st : AsyncClientState) :
    List (PyRat × Except AuthError (Models.User × Int) × Bool × PyInput) → AsyncClientState
  | [] => st
  | a :: rest => applyUserCalls (resolve_user st a.1 a.2.1 a.2.2.1 a.2.2.2).2 rest

/-- Apply a sequence of `resolve_token` calls, each given as
(now, fetch outcome, callback supplied, token), to the client state. -/
def applyTokenCalls (st : AsyncClientState) :
    List (PyRat × Except AuthError Token × Bool × PyInput) → AsyncClientState
  | [] => st
  | a :: rest => applyTokenCalls (resolve_token st a.1 a.2.1 a.2.2.1 a.2.2.2).2 rest

end AsyncClient

/-- Whether an `Except` value is an error. -/
def isErrorB {ε α : Type} : Except ε α → Bool
  | .error _ => true
  | .ok _ => false

/-! ## Witness material: concrete sample values -/

/-- A concrete token record used in witnesses (`cachefor` is 300000
milliseconds, the value the auth service returns in the repository tests). -/
def sampleToken : AsyncClient.Token := ⟨"idA", "alice", 1, 2, 300000⟩

/-- A concrete token cache holding `sampleToken` under key `"t"`, inserted at
time 1000 with TTL 300 (so the entry expires at instant 1300). -/
def sampleHitCache : LRUCache String AsyncClient.Token :=
  (LRUCache.construct String AsyncClient.Token 3).set 1000 300 "t" sampleToken

/-! ## Claim theorems -/

/-- Claim C1: for every sequence of `set` operations on a cache constructed
with capacity `N >= 1`, after each operation completes the cache holds at
most `N` entries.  The bound is proved for every operation sequence; the
state after each individual operation is the final state of the
corresponding initial subsequence, so it is covered by the quantification
over all sequences. -/
theorem c1_capacity_invariant {K V : Type} [DecidableEq K] (N : Nat) (hN : 1 ≤ N)
    (ops : List (PyRat × PyRat × K × V)) :
    ((LRUCache.construct K V N).applySets ops).entries.length ≤ N :=
  applySets_length_le ops _ hN (by simp [LRUCache.construct])

/-- Witness for C1: a capacity-2 cache, after three insertions of distinct
keys, holds at most 2 entries. -/
theorem c1_capacity_invariant_witness :
    1 ≤ 2 ∧
      ((LRUCache.construct Nat Nat 2).applySets
        [(0, 1, 5, 50), (0, 1, 6, 60), (0, 1, 7, 70)]).entries.length ≤ 2 :=
  ⟨by decide, c1_capacity_invariant 2 (by decide) [(0, 1, 5, 50), (0, 1, 6, 60), (0, 1, 7, 70)]⟩

/-- Claim C3: a `get` of a key whose stored entry has expiration at or before
the clock reading returns absent and removes the entry; a `get` strictly
before the expiration returns the value and moves the entry to the head of
the recency order (most-recently-used). -/
theorem c3_ttl_expiry {K V : Type} [DecidableEq K] (c : LRUCache K V) (k : K) (v : V)
    (e now : PyRat) (hmem : c.lookup k = some (v, e)) :
    (e ≤ now → (c.get now k).1 = none ∧ ((c.get now k).2).lookup k = none) ∧
    (now < e → (c.get now k).1 = some v ∧ ((c.get now k).2).entries.head? = some (k, v, e)) := by
  have hf : lruFind k c.entries = some (v, e) := hmem
  constructor
  · intro hle
    simp only [LRUCache.get, hf, if_pos hle, LRUCache.lookup]
    exact ⟨trivial, lruFind_eq_none (not_mem_map_fst_lruErase k c.entries)⟩
  · intro hlt
    simp only [LRUCache.get, hf, if_neg (PyRat.not_le_of_lt hlt)]
    exact ⟨trivial, rfl⟩

/-- Witness for C3, the scenario of the claim: an entry inserted at t=1000
with ttl=300 (expiring at instant 1300) is a hit at t=1299 and a miss (with
removal) at t=1301. -/
theorem c3_ttl_expiry_witness :
    ((LRUCache.construct String Nat 10).set 1000 300 "k" 7).lookup "k" =
        some (7, (1000 : PyRat) + 300) ∧
    ((((LRUCache.construct String Nat 10).set 1000 300 "k" 7).get 1299 "k").1 = some 7 ∧
      ((((LRUCache.construct String Nat 10).set 1000 300 "k" 7).get 1299 "k").2).entries.head? =
        some ("k", 7, (1000 : PyRat) + 300)) ∧
    ((((LRUCache.construct String Nat 10).set 1000 300 "k" 7).get 1301 "k").1 = none ∧
      ((((LRUCache.construct String Nat 10).set 1000 300 "k" 7).get 1301 "k").2).lookup "k" =
        none) :=
  ⟨by decide,
   (c3_ttl_expiry ((LRUCache.construct String Nat 10).set 1000 300 "k" 7) "k" 7
      ((1000 : PyRat) + 300) 1299 (by decide)).2 (by decide),
   (c3_ttl_expiry ((LRUCache.construct String Nat 10).set 1000 300 "k" 7) "k" 7
      ((1000 : PyRat) + 300) 1301 (by decide)).1 (by decide)⟩

/-- Claim C4: when `get_token` completes a fetch successfully, it inserts the
fetched record into the cache under the raw token with TTL equal to that
record's own `cachefor` divided by 1000 (milliseconds to the seconds-based
timer unit), so the stored expiration instant is the insertion instant plus
the per-record TTL — not a cache-wide constant. -/
theorem c4_per_record_ttl (c : LRUCache String AsyncClient.Token) (now : PyRat)
    (tk : AsyncClient.Token) (s : String) (cb : Bool)
    (hs : AsyncClient.pyStrip s ≠ "") (hmiss : (c.get now s).1 = none) :
    (AsyncClient.get_token c now (.ok tk) cb (.pystr s)).result = .ok tk ∧
    (AsyncClient.get_token c now (.ok tk) cb (.pystr s)).cache.lookup s =
      some (tk, now + (PyRat.ofInt tk.cachefor).divNat 1000) := by
  rcases hg : c.get now s with ⟨res, c2⟩
  rw [hg] at hmiss
  simp only at hmiss
  subst hmiss
  simp only [AsyncClient.get_token, AsyncClient.require_string, if_neg hs, hg]
  exact ⟨trivial, lookup_set_self c2 now ((PyRat.ofInt tk.cachefor).divNat 1000) s tk⟩

/-- Witness for C4: on an empty cache, a fetch at t=1000 of a record with
`cachefor = 300000` milliseconds is cached with expiration
1000 + 300000/1000. -/
theorem c4_per_record_ttl_witness :
    (AsyncClient.get_token (LRUCache.construct String AsyncClient.Token 3) 1000
        (.ok sampleToken) true (.pystr "tok")).result = .ok sampleToken ∧
    (AsyncClient.get_token (LRUCache.construct String AsyncClient.Token 3) 1000
        (.ok sampleToken) true (.pystr "tok")).cache.lookup "tok" =
      some (sampleToken, (1000 : PyRat) + (PyRat.ofInt sampleToken.cachefor).divNat 1000) :=
  c4_per_record_ttl (LRUCache.construct String AsyncClient.Token 3) 1000 sampleToken "tok" true
    (by decide) (by decide)

/-- Claim C6: for every token input that is `None`, not a string, or a string
whose stripped form is empty, `get_token` fails with the validation error
(Python `ValueError`) and performs no cache or network interaction: the
cache is returned unchanged and the event trace is empty. -/
theorem c6_validation (c : LRUCache String AsyncClient.Token) (now : PyRat)
    (fetch : Except AuthError AsyncClient.Token) (cb : Bool) (token : PyInput)
    (hbad : token = .pynone ∨ token = .pyother ∨
      ∃ s, token = .pystr s ∧ AsyncClient.pyStrip s = "") :
    AsyncClient.get_token c now fetch cb token =
      ⟨.error (.validationError "token is required and cannot be a whitespace only string"),
        c, []⟩ := by
  rcases hbad with h | h | ⟨s, h, hs⟩
  · subst h
    simp [AsyncClient.get_token, AsyncClient.require_string]
  · subst h
    simp [AsyncClient.get_token, AsyncClient.require_string]
  · subst h
    simp [AsyncClient.get_token, AsyncClient.require_string, hs]

/-- Witness for C6: the three concrete invalid inputs `None`, `"   "` and a
non-string value (such as `3`) all produce the validation error, leave the
cache unchanged, and produce no events. -/
theorem c6_validation_witness :
    (AsyncClient.get_token sampleHitCache 1000 (.ok sampleToken) true .pynone =
      ⟨.error (.validationError "token is required and cannot be a whitespace only string"),
        sampleHitCache, []⟩) ∧
    (AsyncClient.get_token sampleHitCache 1000 (.ok sampleToken) true (.pystr "   ") =
      ⟨.error (.validationError "token is required and cannot be a whitespace only string"),
        sampleHitCache, []⟩) ∧
    (AsyncClient.get_token sampleHitCache 1000 (.ok sampleToken) true .pyother =
      ⟨.error (.validationError "token is required and cannot be a whitespace only string"),
        sampleHitCache, []⟩) :=
  ⟨c6_validation sampleHitCache 1000 (.ok sampleToken) true .pynone (Or.inl rfl),
   c6_validation sampleHitCache 1000 (.ok sampleToken) true (.pystr "   ")
     (Or.inr (Or.inr ⟨"   ", rfl, by decide⟩)),
   c6_validation sampleHitCache 1000 (.ok sampleToken) true .pyother (Or.inr (Or.inl rfl))⟩

/-- Counterexample to claim C9: the `Token` record returned by the client
resolver (`AsyncClient.get_token` constructs the `Token` dataclass defined in
`src/kbase/auth/_async/client.py`) has no MFA field: `mfa` is not among the
field names the source computes via `fields(Token)`. -/
theorem c9_token_fields_counterexample : "mfa" ∉ AsyncClient.VALID_TOKEN_FIELDS := by decide

/-- Claim C9, amended: every `Token` record returned by the token resolver
carries identifier, owning username, creation instant, expiration instant and
cache-for duration, but no MFA status field (the client source defers MFA to
a TODO); the separate models module defines an MFA status enumeration whose
values are exactly USED, NOT_USED and UNKNOWN, and a `Token` dataclass that
does carry it, which the client resolver does not use. -/
theorem c9_token_fields_amended :
    AsyncClient.VALID_TOKEN_FIELDS = ["id", "user", "created", "expires", "cachefor"] ∧
    "mfa" ∈ Models.VALID_TOKEN_FIELDS ∧
    (∀ m : Models.MFAStatus, m = .USED ∨ m = .NOT_USED ∨ m = .UNKNOWN) := by
  refine ⟨rfl, by decide, ?_⟩
  intro m
  cases m
  · exact Or.inl rfl
  · exact Or.inr (Or.inl rfl)
  · exact Or.inr (Or.inr rfl)

/-- Claim C10: `AsyncClient.create` closes the underlying HTTP client exactly
when the service-identity check fails — for every outcome of the handshake
GET (transport error, non-JSON body, non-200 status, wrong servicename), the
closed flag equals the failure of the result, so a failed `create` never
leaks the transport and a successful one keeps it open. -/
theorem c10_create_closes_on_failure (base_url : String)
    (getResult : Except AuthError AsyncClient.HttpResponse) :
    (AsyncClient.create base_url getResult).2 =
      isErrorB (AsyncClient.create base_url getResult).1 := by
  rcases getResult with e | r
  · rfl
  · cases hcr : AsyncClient.check_response r with
    | error e => simp [AsyncClient.create, hcr, isErrorB]
    | ok j =>
        by_cases h : j.servicename = some "Authentication Service"
        · simp [AsyncClient.create, hcr, h, isErrorB]
        · simp [AsyncClient.create, hcr, h, isErrorB]

/-- Claim C5: with an on-cache-miss callback supplied, a cache hit returns
the cached record with no callback invocation and no fetch (the event trace
is just the cache read); a cache miss invokes the callback exactly once,
before exactly one fetch (the trace is exactly cache read, miss callback,
fetch, and — on fetch success — the cache write). -/
theorem c5_cache_miss_callback (c : LRUCache String AsyncClient.Token) (now : PyRat)
    (fetch : Except AuthError AsyncClient.Token) (s : String)
    (hs : AsyncClient.pyStrip s ≠ "") :
    (∀ tk, (c.get now s).1 = some tk →
        (AsyncClient.get_token c now fetch true (.pystr s)).result = .ok tk ∧
        (AsyncClient.get_token c now fetch true (.pystr s)).trace = [Event.cacheGet]) ∧
    ((c.get now s).1 = none → ∀ e, fetch = .error e →
        (AsyncClient.get_token c now fetch true (.pystr s)).trace =
          [Event.cacheGet, Event.cacheMiss, Event.fetch]) ∧
    ((c.get now s).1 = none → ∀ tk, fetch = .ok tk →
        (AsyncClient.get_token c now fetch true (.pystr s)).trace =
          [Event.cacheGet, Event.cacheMiss, Event.fetch, Event.cacheSet]) := by
  rcases hg : c.get now s with ⟨res, c2⟩
  refine ⟨?_, ?_, ?_⟩
  · intro tk hhit
    simp only at hhit
    subst hhit
    simp [AsyncClient.get_token, AsyncClient.require_string, if_neg hs, hg]
  · intro hmiss e hfet
    simp only at hmiss
    subst hmiss
    subst hfet
    simp [AsyncClient.get_token, AsyncClient.require_string, if_neg hs, hg]
  · intro hmiss tk hfet
    simp only at hmiss
    subst hmiss
    subst hfet
    simp [AsyncClient.get_token, AsyncClient.require_string, if_neg hs, hg]

/-- Witness for C5: a hit on a cached token produces no events beyond the
cache read; a miss on an empty cache produces exactly miss callback then
fetch (and the cache write when the fetch succeeds). -/
theorem c5_cache_miss_callback_witness :
    ((AsyncClient.get_token sampleHitCache 1100 (.error (.ioError "boom")) true
        (.pystr "t")).result = .ok sampleToken ∧
      (AsyncClient.get_token sampleHitCache 1100 (.error (.ioError "boom")) true
        (.pystr "t")).trace = [Event.cacheGet]) ∧
    (AsyncClient.get_token (LRUCache.construct String AsyncClient.Token 3) 1100
        (.error (.ioError "boom")) true (.pystr "t")).trace =
      [Event.cacheGet, Event.cacheMiss, Event.fetch] ∧
    (AsyncClient.get_token (LRUCache.construct String AsyncClient.Token 3) 1100
        (.ok sampleToken) true (.pystr "t")).trace =
      [Event.cacheGet, Event.cacheMiss, Event.fetch, Event.cacheSet] :=
  ⟨(c5_cache_miss_callback sampleHitCache 1100 (.error (.ioError "boom")) "t"
      (by decide)).1 sampleToken (by decide),
   (c5_cache_miss_callback (LRUCache.construct String AsyncClient.Token 3) 1100
      (.error (.ioError "boom")) "t" (by decide)).2.1 (by decide) (.ioError "boom") rfl,
   (c5_cache_miss_callback (LRUCache.construct String AsyncClient.Token 3) 1100
      (.ok sampleToken) "t" (by decide)).2.2 (by decide) sampleToken rfl⟩

/-- Claim C7, amended: every `get_token` call on a validly-typed token either
fully succeeds — on a hit the cached record is returned and still cached, on
a miss with successful fetch the fetched record is returned and cached under
the raw token — or fully fails: the fetcher error propagates to the caller
unchanged (no translation, wrapping, retry or stale fallback), no cache
write happens, entries under other keys are untouched, and the only possible
change under the requested key is the lazy removal of an already-expired
entry performed by the cache lookup itself. -/
theorem c7_failure_atomicity (c : LRUCache String AsyncClient.Token) (now : PyRat)
    (fetch : Except AuthError AsyncClient.Token) (cb : Bool) (s : String)
    (hs : AsyncClient.pyStrip s ≠ "") :
    (∀ tk, (c.get now s).1 = some tk →
        (AsyncClient.get_token c now fetch cb (.pystr s)).result = .ok tk ∧
        (∃ e2, (AsyncClient.get_token c now fetch cb (.pystr s)).cache.lookup s =
          some (tk, e2)) ∧
        (∀ k2, k2 ≠ s →
          (AsyncClient.get_token c now fetch cb (.pystr s)).cache.lookup k2 =
            c.lookup k2)) ∧
    ((c.get now s).1 = none → ∀ tk, fetch = .ok tk →
        (AsyncClient.get_token c now fetch cb (.pystr s)).result = .ok tk ∧
        (AsyncClient.get_token c now fetch cb (.pystr s)).cache.lookup s =
          some (tk, now + (PyRat.ofInt tk.cachefor).divNat 1000)) ∧
    ((c.get now s).1 = none → ∀ e, fetch = .error e →
        (AsyncClient.get_token c now fetch cb (.pystr s)).result = .error e ∧
        (AsyncClient.get_token c now fetch cb (.pystr s)).cache = (c.get now s).2 ∧
        Event.cacheSet ∉ (AsyncClient.get_token c now fetch cb (.pystr s)).trace ∧
        (AsyncClient.get_token c now fetch cb (.pystr s)).cache.lookup s = none ∧
        (∀ k2, k2 ≠ s →
          (AsyncClient.get_token c now fetch cb (.pystr s)).cache.lookup k2 =
            c.lookup k2)) := by
  rcases hg : c.get now s with ⟨res, c2⟩
  refine ⟨?_, ?_, ?_⟩
  · intro tk hhit
    simp only at hhit
    subst hhit
    have hhit2 : (c.get now s).1 = some tk := by rw [hg]
    obtain ⟨e2, hf, hle, hc2⟩ := get_hit_result_and_cache hhit2
    have hc2eq : c2 = ⟨c.maxsize, (s, tk, e2) :: lruErase s c.entries⟩ := by
      rw [← hc2, hg]
    refine ⟨?_, ⟨e2, ?_⟩, ?_⟩
    · simp [AsyncClient.get_token, AsyncClient.require_string, if_neg hs, hg]
    · simp only [AsyncClient.get_token, AsyncClient.require_string, if_neg hs, hg]
      rw [hc2eq]
      simp [LRUCache.lookup, lruFind]
    · intro k2 hk2
      simp only [AsyncClient.get_token, AsyncClient.require_string, if_neg hs, hg]
      have hne := lookup_get_ne c now hk2 (k := s)
      rw [hg] at hne
      exact hne
  · intro hmiss tk hfet
    simp only at hmiss
    subst hmiss
    subst hfet
    constructor
    · simp [AsyncClient.get_token, AsyncClient.require_string, if_neg hs, hg]
    · simp only [AsyncClient.get_token, AsyncClient.require_string, if_neg hs, hg]
      exact lookup_set_self c2 now ((PyRat.ofInt tk.cachefor).divNat 1000) s tk
  · intro hmiss e hfet
    simp only at hmiss
    subst hmiss
    subst hfet
    refine ⟨?_, ?_, ?_, ?_, ?_⟩
    · simp [AsyncClient.get_token, AsyncClient.require_string, if_neg hs, hg]
    · simp only [AsyncClient.get_token, AsyncClient.require_string, if_neg hs, hg]
    · simp only [AsyncClient.get_token, AsyncClient.require_string, if_neg hs, hg]
      cases cb <;> simp
    · simp only [AsyncClient.get_token, AsyncClient.require_string, if_neg hs, hg]
      have hnone := lookup_get_self_of_miss c now s (by rw [hg])
      rw [hg] at hnone
      exact hnone
    · intro k2 hk2
      simp only [AsyncClient.get_token, AsyncClient.require_string, if_neg hs, hg]
      have hne := lookup_get_ne c now hk2 (k := s)
      rw [hg] at hne
      exact hne

/-- Counterexample to claim C7 as stated: a fully failing `get_token` call
can change the cache for the requested key.  With an entry for `"t"` that is
already expired at the call instant (stored expiration 1300, call at 1500),
the cache lookup removes the expired entry; the fetch then fails and the
error propagates, yet the entry under `"t"` is gone, so the cache was not
left unchanged for that key. -/
theorem c7_failure_atomicity_counterexample :
    sampleHitCache.lookup "t" = some (sampleToken, (1000 : PyRat) + 300) ∧
    (AsyncClient.get_token sampleHitCache 1500
        (.error (.invalidTokenError "KBase auth server reported token is invalid.")) false
        (.pystr "t")).result =
      .error (.invalidTokenError "KBase auth server reported token is invalid.") ∧
    (AsyncClient.get_token sampleHitCache 1500
        (.error (.invalidTokenError "KBase auth server reported token is invalid.")) false
        (.pystr "t")).cache.lookup "t" = none := by decide

/-- Witness for C7: concrete instances of the hit, fetch-success and
fetch-failure cases of the amended claim. -/
theorem c7_failure_atomicity_witness :
    ((AsyncClient.get_token sampleHitCache 1100 (.error (.ioError "boom")) true
        (.pystr "t")).result = .ok sampleToken ∧
      (∃ e2, (AsyncClient.get_token sampleHitCache 1100 (.error (.ioError "boom")) true
        (.pystr "t")).cache.lookup "t" = some (sampleToken, e2))) ∧
    ((AsyncClient.get_token (LRUCache.construct String AsyncClient.Token 3) 1100
        (.error (.ioError "boom")) true (.pystr "t")).result = .error (.ioError "boom") ∧
      (AsyncClient.get_token (LRUCache.construct String AsyncClient.Token 3) 1100
        (.error (.ioError "boom")) true (.pystr "t")).cache.lookup "t" = none) :=
  ⟨⟨((c7_failure_atomicity sampleHitCache 1100 (.error (.ioError "boom")) true "t"
        (by decide)).1 sampleToken (by decide)).1,
    ((c7_failure_atomicity sampleHitCache 1100 (.error (.ioError "boom")) true "t"
        (by decide)).1 sampleToken (by decide)).2.1⟩,
   ⟨(((c7_failure_atomicity (LRUCache.construct String AsyncClient.Token 3) 1100
        (.error (.ioError "boom")) true "t" (by decide)).2.2 (by decide) (.ioError "boom")
        rfl)).1,
    (((c7_failure_atomicity (LRUCache.construct String AsyncClient.Token 3) 1100
        (.error (.ioError "boom")) true "t" (by decide)).2.2 (by decide) (.ioError "boom")
        rfl)).2.2.2.1⟩⟩

theorem applyUserCalls_token_cache (st : AsyncClient.AsyncClientState)
    (uops : List (PyRat × Except AuthError (Models.User × Int) × Bool × PyInput)) :
    (AsyncClient.applyUserCalls st uops).token_cache = st.token_cache := by
  induction uops generalizing st with
  | nil => rfl
  | cons a rest ih =>
      simp only [AsyncClient.applyUserCalls]
      rw [ih]
      rfl

theorem applyTokenCalls_user_cache (st : AsyncClient.AsyncClientState)
    (tops : List (PyRat × Except AuthError AsyncClient.Token × Bool × PyInput)) :
    (AsyncClient.applyTokenCalls st tops).user_cache = st.user_cache := by
  induction tops generalizing st with
  | nil => rfl
  | cons a rest ih =>
      simp only [AsyncClient.applyTokenCalls]
      rw [ih]
      rfl

/-- Claim C8: the client exposes `resolve_user` returning a `User` record,
and the Token-kind and User-kind resolvers use separate cache instances of
the same cache type: every sequence of user resolutions leaves the token
cache unchanged and vice versa, and the full outcome (returned record or
error, and event trace — hence hit or miss) of a token resolution is
unaffected by any earlier user resolutions, and symmetrically. -/
theorem c8_separate_caches (st : AsyncClient.AsyncClientState)
    (uops : List (PyRat × Except AuthError (Models.User × Int) × Bool × PyInput))
    (tops : List (PyRat × Except AuthError AsyncClient.Token × Bool × PyInput)) :
    (AsyncClient.applyUserCalls st uops).token_cache = st.token_cache ∧
    (AsyncClient.applyTokenCalls st tops).user_cache = st.user_cache ∧
    (∀ now fetch cb token,
      (AsyncClient.resolve_token (AsyncClient.applyUserCalls st uops) now fetch cb token).1 =
        (AsyncClient.resolve_token st now fetch cb token).1) ∧
    (∀ now fetch cb token,
      (AsyncClient.resolve_user (AsyncClient.applyTokenCalls st tops) now fetch cb token).1 =
        (AsyncClient.resolve_user st now fetch cb token).1) := by
  refine ⟨applyUserCalls_token_cache st uops, applyTokenCalls_user_cache st tops, ?_, ?_⟩
  · intro now fetch cb token
    simp only [AsyncClient.resolve_token, applyUserCalls_token_cache]
  · intro now fetch cb token
    simp only [AsyncClient.resolve_user, applyTokenCalls_user_cache]

/-- Counterexample to claim C2 as stated.  First part: with capacity N = 1,
key 1 is inserted, read (a genuine unexpired hit at t = 1), and then key 2 is
inserted — yet key 1 is evicted, so a read does not protect K when there is
no other key to evict.  Second part: with capacity N = 2 and the cache full,
a `get` of key 1 whose entry is already expired (a read that returns absent
and removes the entry) followed by an insertion evicts no other key: key 2
stays and key 1 is simply gone, so no "other untouched key is evicted
instead". -/
theorem c2_lru_eviction_counterexample :
    ((((LRUCache.construct Nat Nat 1).set 0 10 1 11).get 1 1).1 = some 11 ∧
      (((((LRUCache.construct Nat Nat 1).set 0 10 1 11).get 1 1).2).set 1 10 2 22).lookup 1 =
        none) ∧
    (((((LRUCache.construct Nat Nat 2).set 0 5 1 11).set 0 100 2 22).get 6 1).1 = none ∧
      ((((((LRUCache.construct Nat Nat 2).set 0 5 1 11).set 0 100 2 22).get 6 1).2).set 6 10 3
          33).lookup 1 = none ∧
      (((((((LRUCache.construct Nat Nat 2).set 0 5 1 11).set 0 100 2 22).get 6 1).2).set 6 10 3
          33).lookup 2).isSome = true) := by decide

/-- Claim C2, amended: for a cache of capacity N holding the distinct keys of
`op0 :: rest` (N = the number of those keys), inserting the further distinct
key of `opN` with no intervening gets evicts exactly the first-inserted key
(the key of `op0` is gone and every other key is still present); and if
instead some key K among the cached ones is successfully read (an unexpired
`get` hit) while the cache is full before that insertion, and the cache
holds at least two entries (`rest` is non-empty, so N is at least 2), then K
is protected from the eviction caused by the insertion and some other
untouched key is evicted instead. -/
theorem c2_lru_eviction {K V : Type} [DecidableEq K]
    (op0 opN : PyRat × PyRat × K × V) (rest : List (PyRat × PyRat × K × V))
    (hnd : (((op0 :: rest) ++ [opN]).map opKey).Nodup) :
    (((LRUCache.construct K V (op0 :: rest).length).applySets
        ((op0 :: rest) ++ [opN])).lookup (opKey op0) = none ∧
      ∀ op ∈ (rest ++ [opN]),
        ((((LRUCache.construct K V (op0 :: rest).length).applySets
          ((op0 :: rest) ++ [opN])).lookup (opKey op)).isSome = true)) ∧
    (∀ opR ∈ (op0 :: rest), ∀ tg : PyRat, rest ≠ [] → tg < opR.1 + opR.2.1 →
      ((((LRUCache.construct K V (op0 :: rest).length).applySets (op0 :: rest)).get tg
          (opKey opR)).1 = some (opVal opR) ∧
        ((((((LRUCache.construct K V (op0 :: rest).length).applySets (op0 :: rest)).get tg
          (opKey opR)).2).set opN.1 opN.2.1 (opKey opN) (opVal opN)).lookup
            (opKey opR)).isSome = true ∧
        ∃ op ∈ (op0 :: rest), opKey op ≠ opKey opR ∧
          (((((LRUCache.construct K V (op0 :: rest).length).applySets (op0 :: rest)).get tg
            (opKey opR)).2).set opN.1 opN.2.1 (opKey opN) (opVal opN)).lookup
              (opKey op) = none)) := by
  have hs := hnd
  simp only [List.map_append, List.map_cons, List.map_nil, List.cons_append,
    List.nil_append] at hs
  obtain ⟨h0notin, hnd4⟩ := List.nodup_cons.mp hs
  obtain ⟨hndrest, -, hdisj⟩ := List.nodup_append.mp hnd4
  have h0rest : opKey op0 ∉ rest.map opKey := fun h => h0notin (List.mem_append.mpr (Or.inl h))
  have h0N : opKey op0 ≠ opKey opN := by
    intro h
    exact h0notin (List.mem_append.mpr (Or.inr (by simp [h])))
  have hnd1 : ((op0 :: rest).map opKey).Nodup := by
    simp only [List.map_cons, List.nodup_cons]
    exact ⟨h0rest, hndrest⟩
  have hNfresh : opKey opN ∉ (op0 :: rest).map opKey := by
    simp only [List.map_cons, List.mem_cons]
    push_neg
    exact ⟨fun h => h0N h.symm, fun h => hdisj h (by simp)⟩
  have hfill : ((LRUCache.construct K V (op0 :: rest).length).applySets (op0 :: rest)).entries
      = ((op0 :: rest).map opEntry).reverse := by
    have h := applySets_fresh (op0 :: rest) (LRUCache.construct K V (op0 :: rest).length)
      hnd1 (by intro o ho; simp [LRUCache.construct]) (by simp [LRUCache.construct])
    rw [show (LRUCache.construct K V (op0 :: rest).length).entries = [] from rfl,
      List.append_nil] at h
    exact h
  have hmax : ((LRUCache.construct K V (op0 :: rest).length).applySets (op0 :: rest)).maxsize
      = (op0 :: rest).length := by
    rw [applySets_maxsize]
    rfl
  have hkeys : ((((op0 :: rest).map opEntry).reverse).map Prod.fst)
      = ((op0 :: rest).map opKey).reverse := by
    rw [List.map_reverse, List.map_map]
    rfl
  have hkeysrest : (((rest.map opEntry).reverse).map Prod.fst)
      = (rest.map opKey).reverse := by
    rw [List.map_reverse, List.map_map]
    rfl
  constructor
  · -- part a: inserting one more fresh key evicts exactly the first key
    have happ : (LRUCache.construct K V (op0 :: rest).length).applySets ((op0 :: rest) ++ [opN])
        = (((LRUCache.construct K V (op0 :: rest).length).applySets (op0 :: rest)).set
            opN.1 opN.2.1 opN.2.2.1 opN.2.2.2) := by
      rw [applySets_append]
      rfl
    have hfreshN : opN.2.2.1 ∉
        (((LRUCache.construct K V (op0 :: rest).length).applySets
          (op0 :: rest)).entries).map Prod.fst := by
      rw [hfill, hkeys]
      intro h
      exact hNfresh (List.mem_reverse.mp h)
    have hfull : ((LRUCache.construct K V (op0 :: rest).length).applySets
        (op0 :: rest)).maxsize ≤
        ((LRUCache.construct K V (op0 :: rest).length).applySets (op0 :: rest)).entries.length
        := by
      rw [hfill, hmax, List.length_reverse, List.length_map]
    have hstep := set_full_fresh opN.1 opN.2.1 opN.2.2.2 hfreshN hfull
    have hdrop : ((((op0 :: rest).map opEntry).reverse)).dropLast
        = (rest.map opEntry).reverse := by
      rw [List.map_cons, List.reverse_cons, List.dropLast_concat]
    have hAentries : ((LRUCache.construct K V (op0 :: rest).length).applySets
        ((op0 :: rest) ++ [opN])).entries
        = (opN.2.2.1, opN.2.2.2, opN.1 + opN.2.1) :: (rest.map opEntry).reverse := by
      rw [happ, hstep, hfill, hdrop]
    constructor
    · simp only [LRUCache.lookup]
      rw [hAentries]
      apply lruFind_eq_none
      simp only [List.map_cons, List.mem_cons]
      push_neg
      constructor
      · intro h
        apply hNfresh
        have hmem0 : opKey op0 ∈ (op0 :: rest).map opKey :=
          List.mem_map_of_mem opKey (List.mem_cons_self op0 rest)
        rwa [h] at hmem0
      · intro h
        rw [hkeysrest] at h
        have h2 : opKey op0 ∈ rest.map opKey := List.mem_reverse.mp h
        simp only [List.map_cons, List.nodup_cons] at hnd1
        exact hnd1.1 h2
    · intro op hop
      simp only [LRUCache.lookup]
      rw [hAentries]
      apply lruFind_isSome
      simp only [List.map_cons, List.mem_cons]
      rcases List.mem_append.mp hop with h | h
      · right
        rw [hkeysrest]
        exact List.mem_reverse.mpr (List.mem_map_of_mem opKey h)
      · left
        have : op = opN := by simpa using h
        subst this
        rfl
  · -- part b: an unexpired read protects the key when another key exists
    intro opR hopR tg hrest hlt
    have hndrev : (((((op0 :: rest).map opEntry).reverse)).map Prod.fst).Nodup := by
      rw [hkeys]
      exact List.nodup_reverse.mpr hnd1
    have hmemR : (opKey opR, opVal opR, opR.1 + opR.2.1)
        ∈ ((op0 :: rest).map opEntry).reverse := by
      rw [List.mem_reverse]
      exact List.mem_map_of_mem opEntry hopR
    have hfind : lruFind (opKey opR) (((op0 :: rest).map opEntry).reverse)
        = some (opVal opR, opR.1 + opR.2.1) :=
      lruFind_of_nodup_mem hndrev hmemR
    have hgetR : ((LRUCache.construct K V (op0 :: rest).length).applySets
        (op0 :: rest)).get tg (opKey opR)
        = (some (opVal opR), ⟨(op0 :: rest).length,
            (opKey opR, opVal opR, opR.1 + opR.2.1)
              :: lruErase (opKey opR) (((op0 :: rest).map opEntry).reverse)⟩) := by
      simp only [LRUCache.get, hfill, hfind, if_neg (PyRat.not_le_of_lt hlt), hmax]
    have hMlen : (lruErase (opKey opR) (((op0 :: rest).map opEntry).reverse)).length + 1
        = (op0 :: rest).length := by
      have hm : opKey opR ∈ ((((op0 :: rest).map opEntry).reverse)).map Prod.fst := by
        rw [hkeys]
        exact List.mem_reverse.mpr (List.mem_map_of_mem opKey hopR)
      have h := length_lruErase_of_nodup_mem hndrev hm
      rwa [List.length_reverse, List.length_map] at h
    have hMne : lruErase (opKey opR) (((op0 :: rest).map opEntry).reverse) ≠ [] := by
      intro h0
      rw [h0] at hMlen
      simp only [List.length_nil, List.length_cons] at hMlen
      have : rest.length = 0 := by omega
      exact hrest (List.length_eq_zero.mp this)
    have hfreshN2 : opKey opN ∉ (((opKey opR, opVal opR, opR.1 + opR.2.1)
        :: lruErase (opKey opR) (((op0 :: rest).map opEntry).reverse)) :
          List (K × V × PyRat)).map Prod.fst := by
      simp only [List.map_cons, List.mem_cons]
      push_neg
      constructor
      · intro h
        apply hNfresh
        rw [h]
        exact List.mem_map_of_mem opKey hopR
      · intro h
        have hsub : (lruErase (opKey opR) (((op0 :: rest).map opEntry).reverse)).Sublist
            (((op0 :: rest).map opEntry).reverse) := lruErase_sublist _ _
        have h2 : opKey opN ∈ ((((op0 :: rest).map opEntry).reverse)).map Prod.fst :=
          (hsub.map Prod.fst).subset h
        rw [hkeys] at h2
        exact hNfresh (List.mem_reverse.mp h2)
    have hcond : ((⟨(op0 :: rest).length, (opKey opR, opVal opR, opR.1 + opR.2.1)
        :: lruErase (opKey opR) (((op0 :: rest).map opEntry).reverse)⟩ :
          LRUCache K V)).maxsize ≤
        ((⟨(op0 :: rest).length, (opKey opR, opVal opR, opR.1 + opR.2.1)
          :: lruErase (opKey opR) (((op0 :: rest).map opEntry).reverse)⟩ :
            LRUCache K V)).entries.length := by
      have hm2 := hMlen
      simp only [List.length_cons] at hm2 ⊢
      omega
    have hstep2 := set_full_fresh opN.1 opN.2.1 (opVal opN) hfreshN2 hcond
    have hdrop2 : (((opKey opR, opVal opR, opR.1 + opR.2.1)
        :: lruErase (opKey opR) (((op0 :: rest).map opEntry).reverse)) :
          List (K × V × PyRat)).dropLast
        = (opKey opR, opVal opR, opR.1 + opR.2.1)
          :: (lruErase (opKey opR) (((op0 :: rest).map opEntry).reverse)).dropLast :=
      dropLast_cons_ne _ hMne
    have hBentries : (((((LRUCache.construct K V (op0 :: rest).length).applySets
        (op0 :: rest)).get tg (opKey opR)).2).set opN.1 opN.2.1 (opKey opN)
          (opVal opN)).entries
        = (opKey opN, opVal opN, opN.1 + opN.2.1)
          :: (opKey opR, opVal opR, opR.1 + opR.2.1)
          :: (lruErase (opKey opR) (((op0 :: rest).map opEntry).reverse)).dropLast := by
      rw [hgetR]
      rw [show ((some (opVal opR), ⟨(op0 :: rest).length,
        (opKey opR, opVal opR, opR.1 + opR.2.1)
          :: lruErase (opKey opR) (((op0 :: rest).map opEntry).reverse)⟩) :
            Option V × LRUCache K V).2
        = (⟨(op0 :: rest).length, (opKey opR, opVal opR, opR.1 + opR.2.1)
            :: lruErase (opKey opR) (((op0 :: rest).map opEntry).reverse)⟩ :
              LRUCache K V) from rfl]
      rw [hstep2, hdrop2]
    refine ⟨?_, ?_, ?_⟩
    · rw [hgetR]
    · simp only [LRUCache.lookup]
      rw [hBentries]
      apply lruFind_isSome
      simp only [List.map_cons, List.mem_cons]
      exact Or.inr (Or.inl trivial)
    · obtain ⟨ga, hga⟩ : ∃ x, (lruErase (opKey opR)
          (((op0 :: rest).map opEntry).reverse)).getLast hMne = x := ⟨_, rfl⟩
      have hsplit : (lruErase (opKey opR) (((op0 :: rest).map opEntry).reverse)).dropLast
          ++ [ga] = lruErase (opKey opR) (((op0 :: rest).map opEntry).reverse) := by
        rw [← hga]
        exact List.dropLast_append_getLast hMne
      have hamem : ga ∈ lruErase (opKey opR) (((op0 :: rest).map opEntry).reverse) := by
        rw [← hga]
        exact List.getLast_mem hMne
      obtain ⟨haE, hane⟩ := mem_lruErase.mp hamem
      obtain ⟨opE, hopE, hopEa⟩ := List.mem_map.mp (List.mem_reverse.mp haE)
      refine ⟨opE, hopE, ?_, ?_⟩
      · intro h
        apply hane
        rw [← hopEa]
        exact h
      · simp only [LRUCache.lookup]
        rw [hBentries]
        apply lruFind_eq_none
        simp only [List.map_cons, List.mem_cons]
        push_neg
        refine ⟨?_, ?_, ?_⟩
        · intro h
          apply hNfresh
          rw [← h]
          exact List.mem_map_of_mem opKey hopE
        · intro h
          apply hane
          rw [← hopEa]
          exact h
        · intro h
          have hsub : (lruErase (opKey opR) (((op0 :: rest).map opEntry).reverse)).Sublist
              (((op0 :: rest).map opEntry).reverse) := lruErase_sublist _ _
          have hndM : ((lruErase (opKey opR)
              (((op0 :: rest).map opEntry).reverse)).map Prod.fst).Nodup :=
            List.Nodup.sublist (hsub.map Prod.fst) hndrev
          have hmapsplit : ((lruErase (opKey opR)
              (((op0 :: rest).map opEntry).reverse)).map Prod.fst)
              = (((lruErase (opKey opR)
                (((op0 :: rest).map opEntry).reverse)).dropLast).map Prod.fst) ++ [ga.1] := by
            conv_lhs => rw [← hsplit]
            simp [List.map_append]
          rw [hmapsplit] at hndM
          obtain ⟨-, -, hdisj2⟩ := List.nodup_append.mp hndM
          apply hdisj2 h
          rw [← hopEa]
          exact List.mem_singleton.mpr rfl

/-- Witness for C2 at capacity 2: inserting keys 1, 2, 3 (distinct, no
intervening gets) evicts exactly key 1 while key 2 survives; and reading key
1 (an unexpired hit) at full capacity before inserting key 3 protects key 1
— some other key is evicted instead. -/
theorem c2_lru_eviction_witness :
    (((LRUCache.construct Nat Nat ([(0, 10, 1, 11), ((0 : PyRat), (10 : PyRat), (2 : Nat),
        (22 : Nat))].length)).applySets
      ([(0, 10, 1, 11), (0, 10, 2, 22)] ++ [(0, 10, 3, 33)])).lookup
        (opKey ((0 : PyRat), (10 : PyRat), (1 : Nat), (11 : Nat))) = none) ∧
    ((((LRUCache.construct Nat Nat ([(0, 10, 1, 11), ((0 : PyRat), (10 : PyRat), (2 : Nat),
        (22 : Nat))].length)).applySets
      ([(0, 10, 1, 11), (0, 10, 2, 22)] ++ [(0, 10, 3, 33)])).lookup
        (opKey ((0 : PyRat), (10 : PyRat), (2 : Nat), (22 : Nat)))).isSome = true) ∧
    ((((LRUCache.construct Nat Nat ([(0, 10, 1, 11), ((0 : PyRat), (10 : PyRat), (2 : Nat),
        (22 : Nat))].length)).applySets [(0, 10, 1, 11), (0, 10, 2, 22)]).get 5
          (opKey ((0 : PyRat), (10 : PyRat), (1 : Nat), (11 : Nat)))).1 =
      some (opVal ((0 : PyRat), (10 : PyRat), (1 : Nat), (11 : Nat)))) ∧
    (((((((LRUCache.construct Nat Nat ([(0, 10, 1, 11), ((0 : PyRat), (10 : PyRat), (2 : Nat),
        (22 : Nat))].length)).applySets [(0, 10, 1, 11), (0, 10, 2, 22)]).get 5
          (opKey ((0 : PyRat), (10 : PyRat), (1 : Nat), (11 : Nat)))).2).set 0 10
            (opKey ((0 : PyRat), (10 : PyRat), (3 : Nat), (33 : Nat)))
            (opVal ((0 : PyRat), (10 : PyRat), (3 : Nat), (33 : Nat)))).lookup
        (opKey ((0 : PyRat), (10 : PyRat), (1 : Nat), (11 : Nat)))).isSome = true) ∧
    (∃ op ∈ ([((0 : PyRat), (10 : PyRat), (1 : Nat), (11 : Nat)), (0, 10, 2, 22)]),
      opKey op ≠ opKey ((0 : PyRat), (10 : PyRat), (1 : Nat), (11 : Nat)) ∧
      ((((((LRUCache.construct Nat Nat ([(0, 10, 1, 11), ((0 : PyRat), (10 : PyRat), (2 : Nat),
        (22 : Nat))].length)).applySets [(0, 10, 1, 11), (0, 10, 2, 22)]).get 5
          (opKey ((0 : PyRat), (10 : PyRat), (1 : Nat), (11 : Nat)))).2).set 0 10
            (opKey ((0 : PyRat), (10 : PyRat), (3 : Nat), (33 : Nat)))
            (opVal ((0 : PyRat), (10 : PyRat), (3 : Nat), (33 : Nat)))).lookup
        (opKey op) = none)) :=
  ⟨(c2_lru_eviction (0, 10, 1, 11) (0, 10, 3, 33) [(0, 10, 2, 22)] (by decide)).1.1,
   (c2_lru_eviction (0, 10, 1, 11) (0, 10, 3, 33) [(0, 10, 2, 22)] (by decide)).1.2
     (0, 10, 2, 22) (by decide),
   ((c2_lru_eviction (0, 10, 1, 11) (0, 10, 3, 33) [(0, 10, 2, 22)] (by decide)).2
     (0, 10, 1, 11) (by decide) 5 (by decide) (by decide)).1,
   ((c2_lru_eviction (0, 10, 1, 11) (0, 10, 3, 33) [(0, 10, 2, 22)] (by decide)).2
     (0, 10, 1, 11) (by decide) 5 (by decide) (by decide)).2.1,
   ((c2_lru_eviction (0, 10, 1, 11) (0, 10, 3, 33) [(0, 10, 2, 22)] (by decide)).2
     (0, 10, 1, 11) (by decide) 5 (by decide) (by decide)).2.2⟩
